import Mathlib

/-!
# Verification of `mtgcalc.py`

A shallow embedding of the parts of `mtgcalc.py` referenced by the claims:

* `PlayBooster.get_cards` (booster simulation), embedded over an explicit
  store of list cells so that in-place mutation (`list.remove`) versus
  copying (`list(...)`) is represented faithfully;
* the fuzzy-name reconciliation loop of the `cheatsheet` command;
* `SetReview.parse` (freeform review parsing);
* `group_sheet` (colour grouping for the cheatsheet CSV).

Randomness is modelled by an oracle: a list of natural numbers consumed one
element per call to `random.choice` / `random.randint`.  `random.choice(l)`
picks index `n % len(l)` for oracle value `n` (uniform index for uniform `n`),
and `random.randint(a, b)` (inclusive on both ends, as in Python) yields
`a + n % (b - a + 1)`.
-/

namespace Mtgcalc

/-- Errors raised by the embedded code: `KeyError` for a missing dict key,
`IndexError` for `random.choice` on an empty sequence. -/
inductive PackError where
  | keyError (key : String)
  | indexError
deriving DecidableEq, Repr

/-- `True` iff the computation raised. -/
def isError {ε β : Type} : Except ε β → Bool
  | .error _ => true
  | .ok _ => false

instance {ε β : Type} [DecidableEq ε] [DecidableEq β] : DecidableEq (Except ε β) := by
  intro a b
  cases a <;> cases b
  case error.error e f =>
    exact if h : e = f then .isTrue (by rw [h]) else .isFalse (by simp [h])
  case ok.ok x y =>
    exact if h : x = y then .isTrue (by rw [h]) else .isFalse (by simp [h])
  case error.ok e x => exact .isFalse (by simp)
  case ok.error x e => exact .isFalse (by simp)

/-! ## Python dicts as association lists (insertion order preserved) -/

/-- `d.get(k)` / `k in d`: first binding of `k`, if any. -/
def dictFind {β : Type} : List (String × β) → String → Option β
  | [], _ => none
  | (k, v) :: rest, key => if k = key then some v else dictFind rest key

/-- `d[k]`: the value at `k`, or a `KeyError`. -/
def dictGetE {β : Type} (m : List (String × β)) (k : String) : Except PackError β :=
  match dictFind m k with
  | some v => .ok v
  | none => .error (.keyError k)

/-- `d[k] = v`: overwrite in place (keeping the key's position) or append. -/
def dictSet {β : Type} : List (String × β) → String → β → List (String × β)
  | [], k, v => [(k, v)]
  | (k', v') :: rest, k, v =>
    if k' = k then (k, v) :: rest else (k', v') :: dictSet rest k v

/-- `d.setdefault(k, []).append(v)`: append `v` to the bucket at `k`,
creating the bucket if needed. -/
def dictAppend {β : Type} : List (String × List β) → String → β → List (String × List β)
  | [], k, v => [(k, [v])]
  | (k', vs) :: rest, k, v =>
    if k' = k then (k, vs ++ [v]) :: rest else (k', vs) :: dictAppend rest k v

/-! ## A store of Python list objects

The rarity-bucket dict maps tier names to *references* (cell indices) into a
store of lists; `list(x)` allocates a fresh cell holding a copy, and
`l.remove(c)` writes the cell in place.  This keeps aliasing observable, so
the frame claim C9 is a real statement. -/

def listGet {β : Type} : List (List β) → Nat → List β
  | [], _ => []
  | x :: _, 0 => x
  | _ :: xs, n + 1 => listGet xs n

def listSet {β : Type} : List (List β) → Nat → List β → List (List β)
  | [], _, _ => []
  | _ :: xs, 0, v => v :: xs
  | x :: xs, n + 1, v => x :: listSet xs n v

structure Store (α : Type) where
  cells : List (List α)
deriving DecidableEq, Repr

def Store.read {α : Type} (st : Store α) (i : Nat) : List α := listGet st.cells i

def Store.write {α : Type} (st : Store α) (i : Nat) (v : List α) : Store α :=
  ⟨listSet st.cells i v⟩

/-- Allocate a fresh cell; its index is `Store.size st`. -/
def Store.push {α : Type} (st : Store α) (v : List α) : Store α := ⟨st.cells ++ [v]⟩

def Store.size {α : Type} (st : Store α) : Nat := st.cells.length

/-! ## Random primitives -/

/-- `random.randint(lo, hi)` (both ends inclusive): consumes one oracle value. -/
def randint (lo hi : Nat) (rng : List Nat) : Nat × List Nat :=
  (lo + rng.headD 0 % (hi - lo + 1), rng.tail)

/-- `random.choice(l)`: uniform element of `l`, `IndexError` on an empty list.
Consumes one oracle value. -/
def pyChoice {α : Type} (l : List α) (rng : List Nat) : Except PackError (α × List Nat) :=
  match l with
  | [] => .error .indexError
  | a :: as =>
    .ok ((a :: as).get ⟨rng.headD 0 % (as.length + 1), Nat.mod_lt _ (Nat.succ_pos as.length)⟩,
      rng.tail)

/-! ## `PlayBooster.get_cards` -/

/-- `PlayBooster.pack_size` (class attribute). -/
def pack_size : Nat := 14

/-- The rare slot's tier: `rare_type = "rare"; if random.randint(0, 100) < 13:
rare_type = "mythic"`, applied to the consumed roll. -/
def rareSlotTier (r : Nat) : String := if r < 13 then "mythic" else "rare"

/-- Tier selection of a wildcard slot from the `randint(0, 10)` roll `rt`
(and, only when `rt = 9`, a second `randint(0, 100)` roll `r2`). -/
def wildcardSelect (rt r2 : Nat) : String :=
  if rt = 9 then rareSlotTier r2 else if 6 ≤ rt then "uncommon" else "common"

/-- One wildcard slot: roll `randint(0, 10)`; on 9, re-roll the 13% mythic
override; then `random.choice(card_set_rarity[rare_type])`, reading the
dict's own cell (the original bucket, not a working copy). -/
def wildcardDraw {α : Type} (dict : List (String × Nat)) (st : Store α) (rng : List Nat) :
    Except PackError (α × List Nat) :=
  let rt := (randint 0 10 rng).1
  let rng1 := (randint 0 10 rng).2
  -- the second roll is consumed only in the `rt = 9` branch
  let r2p := if rt = 9 then randint 0 100 rng1 else (0, rng1)
  match dictGetE dict (wildcardSelect rt r2p.1) with
  | .error e => .error e
  | .ok ti => pyChoice (Store.read st ti) r2p.2

/-- The loop `for c in range(k): card = random.choice(cell); cell.remove(card);
pack_cards.append(card)` acting on the list object at cell `idx`.
`remove` deletes the first occurrence equal to the drawn card. -/
def drawLoopCell {α : Type} [DecidableEq α] :
    Nat → Nat → Store α → List Nat → Except PackError (List α × Store α × List Nat)
  | 0, _, st, rng => .ok ([], st, rng)
  | k + 1, idx, st, rng =>
    match pyChoice (Store.read st idx) rng with
    | .error e => .error e
    | .ok (card, rng1) =>
      match drawLoopCell k idx (Store.write st idx ((Store.read st idx).erase card)) rng1 with
      | .error e => .error e
      | .ok (rest, st2, rng2) => .ok (card :: rest, st2, rng2)

/-- `PlayBooster.get_cards(card_set_rarity)`.  `dict` maps tier names to store
cells holding the tier's card list.  Returns the pack, the final store and the
remaining oracle.  Mirrors the source line by line: six commons and three
uncommons drawn without replacement from fresh copies, the unused
`mythics`/`rares` local copies (whose dict lookups can still raise
`KeyError`), the rare slot with its 13% mythic override, and two wildcard
slots drawn from the original buckets.  (The dead local `distribution` of
floats is omitted.) -/
def get_cards {α : Type} [DecidableEq α] (dict : List (String × Nat)) (st : Store α)
    (rng : List Nat) : Except PackError (List α × Store α × List Nat) :=
  match dictGetE dict "common" with
  | .error e => .error e
  | .ok ci =>
    -- commons = list(card_set_rarity["common"])
    match drawLoopCell 6 (Store.size st) (Store.push st (Store.read st ci)) rng with
    | .error e => .error e
    | .ok (d1, st2, rng1) =>
      match dictGetE dict "uncommon" with
      | .error e => .error e
      | .ok ui =>
        -- uncommons = list(card_set_rarity["uncommon"])
        match drawLoopCell 3 (Store.size st2) (Store.push st2 (Store.read st2 ui)) rng1 with
        | .error e => .error e
        | .ok (d2, st4, rng2) =>
          -- mythics = list(card_set_rarity["mythic"]); rares = list(card_set_rarity["rare"])
          -- (locals never used again, but the lookups and copies happen)
          match dictGetE dict "mythic" with
          | .error e => .error e
          | .ok mi =>
            match dictGetE dict "rare" with
            | .error e => .error e
            | .ok ri =>
              let st5 := Store.push st4 (Store.read st4 mi)
              let st6 := Store.push st5 (Store.read st5 ri)
              -- rare slot
              match dictGetE dict (rareSlotTier (randint 0 100 rng2).1) with
              | .error e => .error e
              | .ok ti =>
                match pyChoice (Store.read st6 ti) (randint 0 100 rng2).2 with
                | .error e => .error e
                | .ok (c10, rng4) =>
                  -- two wildcard slots
                  match wildcardDraw dict st6 rng4 with
                  | .error e => .error e
                  | .ok (w1, rng5) =>
                    match wildcardDraw dict st6 rng5 with
                    | .error e => .error e
                    | .ok (w2, rng6) =>
                      .ok (d1 ++ d2 ++ [c10, w1, w2], st6, rng6)

/-! ## Concrete rarity-bucket maps used as witnesses and counterexamples

Cards are represented by distinct naturals.  `dict20`/`store20` is the spec's
example bucket (20 commons, 10 uncommons, 5 rares, 2 mythics). -/

def dict20 : List (String × Nat) :=
  [("common", 0), ("uncommon", 1), ("rare", 2), ("mythic", 3)]

def store20 : Store Nat :=
  ⟨[List.range 20, (List.range 10).map (fun n => n + 20),
    (List.range 5).map (fun n => n + 30), [35, 36]]⟩

/-- An all-zero oracle: every draw picks index 0, every roll is 0 (so the rare
slot takes the mythic branch and both wildcards take commons). -/
def rng0 : List Nat := List.replicate 15 0

/-- The pack `get_cards dict20 store20 rng0` produces. -/
def pack20 : List Nat := [0, 1, 2, 3, 4, 5, 20, 21, 22, 35, 0, 0]

/-- The store after that call: the four original buckets untouched, plus the
four working copies allocated during the call. -/
def stf20 : Store Nat :=
  ⟨[List.range 20, (List.range 10).map (fun n => n + 20),
    (List.range 5).map (fun n => n + 30), [35, 36],
    (List.range 14).map (fun n => n + 6), (List.range 7).map (fun n => n + 23),
    [35, 36], (List.range 5).map (fun n => n + 30)]⟩

/-- A bucket map whose common bucket holds two equal card values. -/
def dictC : List (String × Nat) :=
  [("common", 0), ("uncommon", 1), ("rare", 2), ("mythic", 3)]

def storeC : Store Nat := ⟨[[0, 0, 1, 2, 3, 4], [5, 6, 7], [9], [8]]⟩

/-- Oracle for `storeC`: the first common draw picks index 1 (the second copy
of card 0), the remaining draws pick index 0, and the rare-slot roll is 50
(so the rare pool is used). -/
def rngC : List Nat := [1, 0, 0, 0, 0, 0, 0, 0, 0, 50, 0, 0, 0, 0, 0]

/-- A bucket map whose rare bucket is present but empty. -/
def dictE : List (String × Nat) :=
  [("common", 0), ("uncommon", 1), ("rare", 2), ("mythic", 3)]

def storeE : Store Nat := ⟨[[0, 1, 2, 3, 4, 5], [6, 7, 8], [], [9]]⟩

/-- Like `storeE` with the common bucket empty instead. -/
def storeW : Store Nat := ⟨[[], [6, 7, 8], [], [9]]⟩

def rngE : List Nat := List.replicate 15 0

/-! ## Python string primitives

Defined structurally over `String.data` so the kernel can evaluate them;
they model the Python `str` methods used by the source (ASCII semantics). -/

/-- `s.lower()`. -/
def pyLower (s : String) : String := ⟨s.data.map Char.toLower⟩

/-- `s.strip()`: drop leading and trailing whitespace. -/
def pyStrip (s : String) : String :=
  ⟨((s.data.dropWhile Char.isWhitespace).reverse.dropWhile Char.isWhitespace).reverse⟩

/-- `c in s` for a single-character needle `c`. -/
def pyContainsChar (s : String) (c : Char) : Bool := s.data.contains c

/-- `s.count(c)` for a single-character needle. -/
def pyCountChar (s : String) (c : Char) : Nat := (s.data.filter (fun x => x = c)).length

/-- `s.isdecimal()`: non-empty and all digits. -/
def pyIsDecimal (s : String) : Bool := !s.data.isEmpty && s.data.all Char.isDigit

/-- `s.split(c, 1)` when `c` occurs in `s`: the part before the first
occurrence and the part after it (`none` when `c` does not occur). -/
def splitOnceChar (c : Char) : List Char → Option (List Char × List Char)
  | [] => none
  | x :: xs =>
    if x = c then some ([], xs)
    else
      match splitOnceChar c xs with
      | some (a, b) => some (x :: a, b)
      | none => none

def splitOnce (s : String) (c : Char) : Option (String × String) :=
  match splitOnceChar c s.data with
  | some (a, b) => some (⟨a⟩, ⟨b⟩)
  | none => none

/-- `Levenshtein.distance(a, b)`: the standard unit-cost edit distance
(Mathlib's `levenshtein` with the default cost structure). -/
def distance (a b : String) : Nat := levenshtein Levenshtein.defaultCost a.data b.data

/-! ## The `cheatsheet` reconciliation loop (source lines 317–331)

`named` is the dict from lowercased card name to card (only its keys matter
here, so the value type is a parameter); the state carries the `found` and
`not_found` lists and the `reviewed` dict, and one `reconcileStep` is the body
of `for card_name in list(reviewed):`. -/

structure RecState (γ : Type) where
  found : List γ
  notFound : List γ
  reviewed : List (String × γ)
deriving Repr, DecidableEq

/-- One iteration of the reconciliation loop, for snapshot key `card_name`:
exact (case-insensitive) hit appends to `found`; otherwise every known name
within Levenshtein distance 4 gets the entry re-keyed onto it
(`reviewed[n] = reviewed[card_name]`), and if no name is that close the entry
is appended to `not_found`. -/
def reconcileStep {κ γ : Type} (named : List (String × κ)) (st : RecState γ)
    (card_name : String) : RecState γ :=
  match dictFind st.reviewed card_name with
  | none => st   -- unreachable: snapshot keys are keys of `reviewed`
  | some card =>
    match dictFind named (pyLower card_name) with
    | some _ => ⟨st.found ++ [card], st.notFound, st.reviewed⟩
    | none =>
      let reviewed2 := named.foldl
        (fun acc p => if distance card_name p.1 ≤ 4 then dictSet acc p.1 card else acc)
        st.reviewed
      let found_typo := named.any (fun p => distance card_name p.1 ≤ 4)
      if found_typo then ⟨st.found, st.notFound, reviewed2⟩
      else ⟨st.found, st.notFound ++ [card], reviewed2⟩

/-- The whole loop, iterating over the snapshot `list(reviewed)` of keys. -/
def reconcile {κ γ : Type} (named : List (String × κ)) (reviewed : List (String × γ)) :
    RecState γ :=
  (reviewed.map Prod.fst).foldl (reconcileStep named) ⟨[], [], reviewed⟩

/-! ## `SetReview.parse` (source lines 255–289) -/

structure ReviewEntry where
  number : String
  name : String
  rating : String
  color : Option String
  notes : List String
deriving Repr, DecidableEq

/-- `SetReview.colors`, in source order.  (It is a Python `set`, whose
iteration order is unspecified; only its first iterated element is ever
used, and by a source bug at that — see `parseStep`.) -/
def colors : List String := ["white", "black", "blue", "green", "multicolored", "lands"]

structure ParseState where
  cards : List ReviewEntry
  group : Option String
  card : Option ReviewEntry
deriving Repr, DecidableEq

/-- One iteration of the `for l in text.splitlines():` loop.  Blank lines are
skipped; a line containing `:` sets the colour group (source bug: the
`startswith` result is discarded and the loop breaks immediately, so the
group is just the first element of the `colors` set); a line with 2 or 3
hyphens whose first field is decimal closes the open card block and opens a
new one (the two `name.lower()` checks in the source are `pass`-only no-ops);
any other line is appended to the open card's notes.  The dead `buf` list is
omitted. -/
def parseStep (st : ParseState) (l : String) : ParseState :=
  if pyStrip l = "" then st
  else if pyContainsChar l ':' then ⟨st.cards, colors.head?, st.card⟩
  else if pyContainsChar l '-' && (pyCountChar l '-' == 2 || pyCountChar l '-' == 3) then
    match splitOnce l '-' with
    | some (check, remain) =>
      if pyIsDecimal (pyStrip check) then
        match splitOnce remain '-' with
        | some (name, rating) =>
          ⟨st.cards ++ (match st.card with | some c => [c] | none => []),
           st.group,
           some ⟨pyStrip check, pyStrip name, pyStrip rating, st.group, []⟩⟩
        | none => st   -- unreachable: the line has at least two hyphens
      else st
    | none => st   -- unreachable: the line contains a hyphen
  else
    match st.card with
    | some c => ⟨st.cards, st.group, some ⟨c.number, c.name, c.rating, c.color, c.notes ++ [l]⟩⟩
    | none => st

/-- `SetReview.parse`, applied to the lines of the document
(`text.splitlines()`).  Note the final open card block is *not* appended:
the source returns `cards` directly after the loop. -/
def parse (lines : List String) : List ReviewEntry :=
  (lines.foldl parseStep ⟨[], none, none⟩).cards

/-! ## `group_sheet` (source lines 360–386) -/

/-- `Card`, with the source's field order.  `prices` is the Scryfall price
dict (currency → optional amount). -/
structure Card where
  name : String
  rarity : String
  prices : List (String × Option String)
  mana_cost : String
  type_line : String
  rating : String
  cardSet : String
deriving Repr, DecidableEq

/-- The keys of `color_map`, in insertion order. -/
def colorTokens : List Char := ['B', 'G', 'W', 'U', 'R']

/-- `color_map[c]`. -/
def colorName : Char → String
  | 'B' => "Black"
  | 'G' => "Green"
  | 'W' => "White"
  | 'U' => "Blue"
  | 'R' => "Red"
  | _ => ""   -- unreachable: only applied to members of `colorTokens`

/-- The `for c in color_map:` scan: first colour token found in the mana cost
(the source's `color` local, with `""` rendered as `none`) and the `multi`
flag, set as soon as a second one is seen. -/
def scanColors (mana : String) : Option Char × Bool :=
  colorTokens.foldl
    (fun acc c =>
      if pyContainsChar mana c then
        match acc.1 with
        | some c0 => (some c0, true)
        | none => (some c, acc.2)
      else acc)
    (none, false)

/-- The body of `group_sheet`'s loop for one card. -/
def group_step (g : List (String × List Card)) (card : Card) : List (String × List Card) :=
  if card.mana_cost = "" then dictAppend g "Lands" card
  else
    match scanColors card.mana_cost with
    | (_, true) => dictAppend g "Multi" card
    | (some c, false) => dictAppend g (colorName c) card
    | (none, false) => g

/-- `group_sheet(cards)`: fold the loop body over the dict's values in
insertion order. -/
def group_sheet (cards : List (String × Card)) : List (String × List Card) :=
  cards.foldl (fun g p => group_step g p.2) []

/-- Modelled from the spec's grouping rule (§4.3), as the comparison target
for `group_sheet`: "Lands" on an empty mana cost, the colour's bucket when
exactly one recognized colour token appears, "Multi" when more than one
appears, and no bucket when a non-empty mana cost has no recognized token. -/
def specDisplayGroup (card : Card) : Option String :=
  if card.mana_cost = "" then some "Lands"
  else
    match colorTokens.filter (fun c => pyContainsChar card.mana_cost c) with
    | [] => none
    | [c] => some (colorName c)
    | _ :: _ :: _ => some "Multi"

/-- The outcomes `random.randint(0, 100)` can produce (its image on
single-element oracles ranging over `0..100`). -/
def rollOutcomes : Finset Nat :=
  (Finset.range 101).image (fun n => (randint 0 100 [n]).1)

/-- A sample card used in witnesses: a mono-red instant. -/
def cardRed : Card := ⟨"Bolt", "common", [], "{R}", "Instant", "", "mkm"⟩

/-- A one-card name map used in the reconciliation witness. -/
def named1 : List (String × Nat) := [("bolt", 0)]

/-- A reconciliation state whose `reviewed` dict holds one entry under the
misspelled name "Bol". -/
def rsSt : RecState Nat := ⟨[], [], [("Bol", 7)]⟩

/-! ## Store lemmas -/

theorem listGet_out {β : Type} : ∀ (xs : List (List β)) (i : Nat), xs.length ≤ i →
    listGet xs i = [] := by
  intro xs
  induction xs with
  | nil => intro i _; cases i <;> rfl
  | cons x xs ih =>
    intro i hi
    cases i with
    | zero => simp at hi
    | succ n => exact ih n (by simpa using hi)

theorem listGet_append_self {β : Type} : ∀ (xs : List (List β)) (v : List β),
    listGet (xs ++ [v]) xs.length = v := by
  intro xs v
  induction xs with
  | nil => rfl
  | cons x xs ih => simpa using ih

theorem listGet_append_ne {β : Type} : ∀ (xs : List (List β)) (v : List β) (i : Nat),
    i ≠ xs.length → listGet (xs ++ [v]) i = listGet xs i := by
  intro xs
  induction xs with
  | nil =>
    intro v i hi
    cases i with
    | zero => simp at hi
    | succ n => cases n <;> rfl
  | cons x xs ih =>
    intro v i hi
    cases i with
    | zero => rfl
    | succ n => exact ih v n (by simpa using hi)

theorem listGet_set_self {β : Type} : ∀ (xs : List (List β)) (i : Nat) (v : List β),
    i < xs.length → listGet (listSet xs i v) i = v := by
  intro xs
  induction xs with
  | nil => intro i v hi; simp at hi
  | cons x xs ih =>
    intro i v hi
    cases i with
    | zero => rfl
    | succ n => exact ih n v (by simpa using hi)

theorem listGet_set_ne {β : Type} : ∀ (xs : List (List β)) (i j : Nat) (v : List β),
    j ≠ i → listGet (listSet xs i v) j = listGet xs j := by
  intro xs
  induction xs with
  | nil => intro i j v _; rfl
  | cons x xs ih =>
    intro i j v hj
    cases i with
    | zero =>
      cases j with
      | zero => exact absurd rfl hj
      | succ m => rfl
    | succ n =>
      cases j with
      | zero => rfl
      | succ m => exact ih n m v (by simpa using hj)

theorem listSet_length {β : Type} : ∀ (xs : List (List β)) (i : Nat) (v : List β),
    (listSet xs i v).length = xs.length := by
  intro xs
  induction xs with
  | nil => intro i v; rfl
  | cons x xs ih =>
    intro i v
    cases i with
    | zero => rfl
    | succ n => simp only [listSet, List.length_cons, ih n v]

theorem Store.read_out {α : Type} (st : Store α) (i : Nat) (h : Store.size st ≤ i) :
    Store.read st i = [] := listGet_out st.cells i h

theorem Store.read_push_self {α : Type} (st : Store α) (v : List α) :
    Store.read (Store.push st v) (Store.size st) = v := listGet_append_self st.cells v

theorem Store.read_push_ne {α : Type} (st : Store α) (v : List α) (i : Nat)
    (h : i ≠ Store.size st) : Store.read (Store.push st v) i = Store.read st i :=
  listGet_append_ne st.cells v i h

theorem Store.read_write_self {α : Type} (st : Store α) (i : Nat) (v : List α)
    (h : i < Store.size st) : Store.read (Store.write st i v) i = v :=
  listGet_set_self st.cells i v h

theorem Store.read_write_ne {α : Type} (st : Store α) (i j : Nat) (v : List α)
    (h : j ≠ i) : Store.read (Store.write st i v) j = Store.read st j :=
  listGet_set_ne st.cells i j v h

theorem Store.size_push {α : Type} (st : Store α) (v : List α) :
    Store.size (Store.push st v) = Store.size st + 1 := by
  simp [Store.size, Store.push]

theorem Store.size_write {α : Type} (st : Store α) (i : Nat) (v : List α) :
    Store.size (Store.write st i v) = Store.size st := listSet_length st.cells i v

theorem Store.lt_of_read_ne_nil {α : Type} (st : Store α) (i : Nat)
    (h : Store.read st i ≠ []) : i < Store.size st := by
  by_contra hlt
  exact h (Store.read_out st i (Nat.le_of_not_lt hlt))

/-! ## Dict lemmas -/

theorem dictFind_dictSet_self {β : Type} : ∀ (m : List (String × β)) (k : String) (v : β),
    dictFind (dictSet m k v) k = some v := by
  intro m
  induction m with
  | nil => intro k v; simp [dictSet, dictFind]
  | cons p rest ih =>
    obtain ⟨k0, v0⟩ := p
    intro k v
    by_cases h : k0 = k
    · simp [dictSet, dictFind, h]
    · simp [dictSet, dictFind, h, ih k v]

theorem dictFind_dictSet_ne {β : Type} : ∀ (m : List (String × β)) (k k' : String) (v : β),
    k' ≠ k → dictFind (dictSet m k v) k' = dictFind m k' := by
  intro m
  induction m with
  | nil =>
    intro k k' v h
    simp only [dictSet, dictFind, if_neg (Ne.symm h)]
  | cons p rest ih =>
    obtain ⟨k0, v0⟩ := p
    intro k k' v h
    by_cases hp : k0 = k
    · subst hp
      simp only [dictSet, if_pos rfl, dictFind, if_neg (Ne.symm h)]
    · simp only [dictSet, if_neg hp, dictFind]
      by_cases hk : k0 = k'
      · simp [hk]
      · simp [hk, ih k k' v h]

theorem dictFind_mem {β : Type} : ∀ (m : List (String × β)) (k : String) (v : β),
    dictFind m k = some v → (k, v) ∈ m := by
  intro m
  induction m with
  | nil => intro k v h; simp [dictFind] at h
  | cons p rest ih =>
    obtain ⟨k0, v0⟩ := p
    intro k v h
    simp only [dictFind] at h
    by_cases hp : k0 = k
    · rw [if_pos hp] at h
      injection h with h
      subst hp; subst h
      exact List.mem_cons_self _ _
    · rw [if_neg hp] at h
      exact List.mem_cons_of_mem _ (ih k v h)

theorem dictFind_eq_none {β : Type} : ∀ (m : List (String × β)) (k : String),
    k ∉ m.map Prod.fst → dictFind m k = none := by
  intro m
  induction m with
  | nil => intro k _; rfl
  | cons p rest ih =>
    obtain ⟨k0, v0⟩ := p
    intro k hk
    simp only [List.map_cons, List.mem_cons] at hk
    push_neg at hk
    simp only [dictFind, if_neg (Ne.symm hk.1)]
    exact ih k hk.2

theorem dictFind_isSome_mem {β : Type} : ∀ (m : List (String × β)) (k : String),
    dictFind m k ≠ none → k ∈ m.map Prod.fst := by
  intro m k h
  by_contra hk
  exact h (dictFind_eq_none m k hk)

/-! ## Draw-loop invariants -/

theorem pyChoice_ok_inv {α : Type} (l : List α) (rng : List Nat) (c : α) (rng2 : List Nat)
    (h : pyChoice l rng = .ok (c, rng2)) : c ∈ l ∧ rng2 = rng.tail := by
  cases l with
  | nil => simp [pyChoice] at h
  | cons a as =>
    simp only [pyChoice, Except.ok.injEq, Prod.mk.injEq] at h
    obtain ⟨h1, h2⟩ := h
    subst h2
    exact ⟨h1 ▸ List.get_mem _ _ _, rfl⟩

/-- A successful `k`-draw loop on cell `idx` draws `k` cards, consumes `k`
oracle values, leaves the drawn cards plus the cell's remainder a permutation
of the cell's previous contents, and touches no other cell. -/
theorem drawLoopCell_spec {α : Type} [DecidableEq α] :
    ∀ (k idx : Nat) (st : Store α) (rng : List Nat) (d : List α) (st2 : Store α)
      (rng2 : List Nat), drawLoopCell k idx st rng = .ok (d, st2, rng2) →
      d.length = k ∧ rng2 = rng.drop k ∧
      List.Perm (d ++ Store.read st2 idx) (Store.read st idx) ∧
      (∀ j, j ≠ idx → Store.read st2 j = Store.read st j) ∧
      Store.size st2 = Store.size st := by
  intro k
  induction k with
  | zero =>
    intro idx st rng d st2 rng2 h
    simp only [drawLoopCell, Except.ok.injEq, Prod.mk.injEq] at h
    obtain ⟨h1, h2, h3⟩ := h
    subst h1; subst h2; subst h3
    exact ⟨rfl, rfl, List.Perm.refl _, fun j _ => rfl, rfl⟩
  | succ k ih =>
    intro idx st rng d st2 rng2 h
    rw [drawLoopCell] at h
    split at h
    · exact absurd h (by simp)
    · rename_i card rng1 hc
      split at h
      · exact absurd h (by simp)
      · rename_i rest st3 rng3 hrec
        simp only [Except.ok.injEq, Prod.mk.injEq] at h
        obtain ⟨h1, h2, h3⟩ := h
        subst h1; subst h2; subst h3
        obtain ⟨hmem, htl⟩ := pyChoice_ok_inv _ _ _ _ hc
        have hne : Store.read st idx ≠ [] := by
          intro hnil; rw [hnil] at hmem; cases hmem
        have hlt : idx < Store.size st := Store.lt_of_read_ne_nil st idx hne
        obtain ⟨hlen, hrng, hperm, hframe, hsize⟩ := ih idx _ rng1 rest st3 rng3 hrec
        rw [Store.read_write_self st idx _ hlt] at hperm
        refine ⟨by simp [hlen], ?_, ?_, ?_, ?_⟩
        · rw [hrng, htl, ← List.drop_one, List.drop_drop, Nat.add_comm]
        · exact (List.Perm.cons card hperm).trans (List.perm_cons_erase hmem).symm
        · intro j hj
          rw [hframe j hj, Store.read_write_ne st idx j _ hj]
        · rw [hsize, Store.size_write]

theorem dictGetE_ok_iff {β : Type} (m : List (String × β)) (k : String) (v : β) :
    dictGetE m k = .ok v ↔ dictFind m k = some v := by
  unfold dictGetE
  cases h : dictFind m k <;> simp

theorem dictGetE_none {β : Type} (m : List (String × β)) (k : String)
    (h : dictFind m k = none) : dictGetE m k = .error (.keyError k) := by
  unfold dictGetE
  rw [h]

/-- Inversion of a successful `get_cards` call: all four tier lookups
succeeded, the common and uncommon draw loops ran on fresh copies of their
buckets, the final store is the post-draw store plus the two unused copies,
the rare slot drew from the tier chosen by the tenth oracle value, and the
two wildcard draws ran on the final store. -/
theorem get_cards_ok_inv {α : Type} [DecidableEq α] (dict : List (String × Nat))
    (st : Store α) (rng : List Nat) (pack : List α) (stf : Store α) (rngf : List Nat)
    (h : get_cards dict st rng = .ok (pack, stf, rngf)) :
    ∃ ci ui mi ri ti d1 d2 c10 w1 w2 st2 st4 rng5 rng6,
      dictFind dict "common" = some ci ∧
      drawLoopCell 6 (Store.size st) (Store.push st (Store.read st ci)) rng
        = .ok (d1, st2, rng.drop 6) ∧
      dictFind dict "uncommon" = some ui ∧
      drawLoopCell 3 (Store.size st2) (Store.push st2 (Store.read st2 ui)) (rng.drop 6)
        = .ok (d2, st4, rng.drop 9) ∧
      dictFind dict "mythic" = some mi ∧
      dictFind dict "rare" = some ri ∧
      stf = Store.push (Store.push st4 (Store.read st4 mi))
              (Store.read (Store.push st4 (Store.read st4 mi)) ri) ∧
      dictFind dict (rareSlotTier ((rng.drop 9).headD 0 % 101)) = some ti ∧
      pyChoice (Store.read stf ti) (rng.drop 10) = .ok (c10, rng.drop 11) ∧
      wildcardDraw dict stf (rng.drop 11) = .ok (w1, rng5) ∧
      wildcardDraw dict stf rng5 = .ok (w2, rng6) ∧
      pack = d1 ++ d2 ++ [c10, w1, w2] ∧ rngf = rng6 := by
  rw [get_cards] at h
  split at h
  · exact absurd h (by simp)
  rename_i ci hci
  split at h
  · exact absurd h (by simp)
  rename_i d1 st2 rng1 hd1
  split at h
  · exact absurd h (by simp)
  rename_i ui hui
  split at h
  · exact absurd h (by simp)
  rename_i d2 st4 rng2 hd2
  split at h
  · exact absurd h (by simp)
  rename_i mi hmi
  split at h
  · exact absurd h (by simp)
  rename_i ri hri
  simp only [] at h
  split at h
  · exact absurd h (by simp)
  rename_i ti hti
  split at h
  · exact absurd h (by simp)
  rename_i c10 rng4 hc10
  split at h
  · exact absurd h (by simp)
  rename_i w1 rng5 hw1
  split at h
  · exact absurd h (by simp)
  rename_i w2 rng6 hw2
  simp only [Except.ok.injEq, Prod.mk.injEq] at h
  obtain ⟨hpack, hstf, hrngf⟩ := h
  have hr1 : rng1 = rng.drop 6 := (drawLoopCell_spec 6 _ _ _ _ _ _ hd1).2.1
  subst hr1
  have hr2 : rng2 = rng.drop 9 := by
    rw [(drawLoopCell_spec 3 _ _ _ _ _ _ hd2).2.1, List.drop_drop]
  subst hr2
  have hrand1 : (randint 0 100 (rng.drop 9)).1 = (rng.drop 9).headD 0 % 101 := by
    simp [randint]
  have hrand2 : (randint 0 100 (rng.drop 9)).2 = rng.drop 10 := by
    simp only [randint, ← List.drop_one, List.drop_drop]
  rw [hrand1] at hti
  rw [hrand2] at hc10
  have hr4 : rng4 = rng.drop 11 := by
    rw [(pyChoice_ok_inv _ _ _ _ hc10).2, ← List.drop_one, List.drop_drop]
  subst hr4
  subst hstf
  subst hpack
  subst hrngf
  exact ⟨ci, ui, mi, ri, ti, d1, d2, c10, w1, w2, st2, st4, rng5, rng6,
    (dictGetE_ok_iff _ _ _).mp hci, hd1, (dictGetE_ok_iff _ _ _).mp hui, hd2,
    (dictGetE_ok_iff _ _ _).mp hmi, (dictGetE_ok_iff _ _ _).mp hri, rfl,
    (dictGetE_ok_iff _ _ _).mp hti, hc10, hw1, hw2, rfl, rfl⟩

/-- Cells that existed before a `get_cards` call read the same afterwards:
the two draw loops only write the freshly allocated working copies, and the
remaining allocations only append. -/
theorem frame_chain {α : Type} [DecidableEq α] (st st2 st4 : Store α) (ci ui mi ri : Nat)
    (rng : List Nat) (d1 d2 : List α)
    (hd1 : drawLoopCell 6 (Store.size st) (Store.push st (Store.read st ci)) rng
      = .ok (d1, st2, rng.drop 6))
    (hd2 : drawLoopCell 3 (Store.size st2) (Store.push st2 (Store.read st2 ui)) (rng.drop 6)
      = .ok (d2, st4, rng.drop 9)) :
    ∀ i, i < Store.size st →
      Store.read (Store.push (Store.push st4 (Store.read st4 mi))
        (Store.read (Store.push st4 (Store.read st4 mi)) ri)) i = Store.read st i := by
  intro i hi
  obtain ⟨_, _, _, hfr1, hsz1⟩ := drawLoopCell_spec 6 _ _ _ _ _ _ hd1
  obtain ⟨_, _, _, hfr2, hsz2⟩ := drawLoopCell_spec 3 _ _ _ _ _ _ hd2
  rw [Store.size_push] at hsz1
  rw [Store.size_push] at hsz2
  have h2 : Store.size st2 = Store.size st + 1 := hsz1
  have h4 : Store.size st4 = Store.size st + 2 := by omega
  rw [Store.read_push_ne _ _ i (by rw [Store.size_push, h4]; omega)]
  rw [Store.read_push_ne _ _ i (by rw [h4]; omega)]
  rw [hfr2 i (by omega)]
  rw [Store.read_push_ne _ _ i (by omega)]
  rw [hfr1 i (by omega)]
  rw [Store.read_push_ne _ _ i (by omega)]

/-- Claim C1 (code bug): the class declares `pack_size = 14` (and the spec's
example demands a 14-card pack for buckets of 20/10/5/2 cards), but
`get_cards` draws 6 + 3 + 1 + 2 = 12 cards: on the spec's own example
bucket the returned pack has length 12, not 14. -/
theorem C1_pack_size_code_bug :
    (get_cards dict20 store20 rng0).map (fun x => x.1.length) = .ok 12 ∧
    pack_size = 14 ∧ (12 : Nat) ≠ pack_size := by decide

/-- Claim C4, counterexample: with a common bucket holding two equal card
values `[0, 0, 1, 2, 3, 4]`, the first two common-slot draws can both yield
card `0` (`remove` deletes the *first* equal occurrence, not the drawn one),
so the six common-slot cards are not pairwise distinct. -/
theorem C4_counterexample :
    (get_cards dictC storeC rngC).map (fun x => x.1) =
      .ok [0, 0, 1, 2, 3, 4, 5, 6, 7, 9, 0, 0] ∧
    ¬ (([0, 0, 1, 2, 3, 4, 5, 6, 7, 9, 0, 0] : List Nat).take 6).Nodup := by decide

/-- Claim C4, amended: provided the common and uncommon buckets contain no
duplicate card values, any pack returned by `get_cards` has its six
common-slot cards pairwise distinct and drawn from the common bucket, and
its three uncommon-slot cards pairwise distinct and drawn from the uncommon
bucket (each draw removes the drawn card from the slot's working copy). -/
theorem C4_distinct_slots {α : Type} [DecidableEq α] (dict : List (String × Nat))
    (st : Store α) (rng : List Nat) (pack : List α) (stf : Store α) (rngf : List Nat)
    (ci ui : Nat)
    (hci : dictFind dict "common" = some ci) (hcn : (Store.read st ci).Nodup)
    (hui : dictFind dict "uncommon" = some ui) (hun : (Store.read st ui).Nodup)
    (huilt : ui < Store.size st)
    (h : get_cards dict st rng = .ok (pack, stf, rngf)) :
    (pack.take 6).Nodup ∧ (∀ x ∈ pack.take 6, x ∈ Store.read st ci) ∧
    ((pack.drop 6).take 3).Nodup ∧ (∀ x ∈ (pack.drop 6).take 3, x ∈ Store.read st ui) := by
  obtain ⟨ci', ui', mi, ri, ti, d1, d2, c10, w1, w2, st2, st4, rng5, rng6,
    hci', hd1, hui', hd2, hmi, hri, hstf, hti, hc10, hw1, hw2, hpack, hrngf⟩ :=
    get_cards_ok_inv dict st rng pack stf rngf h
  rw [hci] at hci'
  injection hci' with e1
  subst e1
  rw [hui] at hui'
  injection hui' with e2
  subst e2
  obtain ⟨hlen1, _, hperm1, hfr1, hsz1⟩ := drawLoopCell_spec 6 _ _ _ _ _ _ hd1
  obtain ⟨hlen2, _, hperm2, hfr2, hsz2⟩ := drawLoopCell_spec 3 _ _ _ _ _ _ hd2
  rw [Store.read_push_self] at hperm1
  rw [Store.read_push_self] at hperm2
  have hu2 : Store.read st2 ui = Store.read st ui := by
    rw [hfr1 ui (Nat.ne_of_lt huilt), Store.read_push_ne _ _ ui (Nat.ne_of_lt huilt)]
  rw [hu2] at hperm2
  have htake : pack.take 6 = d1 := by
    rw [hpack, List.append_assoc, List.take_left' hlen1]
  have hdrop : (pack.drop 6).take 3 = d2 := by
    rw [hpack, List.append_assoc, List.drop_left' hlen1, List.take_left' hlen2]
  have hnd1 : (d1 ++ Store.read st2 (Store.size st)).Nodup := hperm1.nodup_iff.mpr hcn
  have hnd2 : (d2 ++ Store.read st4 (Store.size st2)).Nodup := hperm2.nodup_iff.mpr hun
  refine ⟨?_, ?_, ?_, ?_⟩
  · rw [htake]; exact hnd1.of_append_left
  · intro x hx
    rw [htake] at hx
    exact hperm1.mem_iff.mp (List.mem_append_left _ hx)
  · rw [hdrop]; exact hnd2.of_append_left
  · intro x hx
    rw [hdrop] at hx
    exact hperm2.mem_iff.mp (List.mem_append_left _ hx)

/-- Claim C4 witness: a concrete run on the 20/10/5/2 bucket map, whose
buckets are duplicate-free. -/
theorem C4_distinct_slots_witness :
    (pack20.take 6).Nodup ∧ (∀ x ∈ pack20.take 6, x ∈ Store.read store20 0) ∧
    ((pack20.drop 6).take 3).Nodup ∧ (∀ x ∈ (pack20.drop 6).take 3, x ∈ Store.read store20 1) :=
  C4_distinct_slots dict20 store20 rng0 pack20 stf20 [] 0 1 (by rfl) (by decide)
    (by rfl) (by decide) (by decide) (by rfl)

/-- Claim C5, counterexample: the rare tier is present with zero cards, yet
`get_cards` succeeds (the rare-slot roll selects the mythic pool and the
wildcards select commons), returning a full pack.  The claim's unconditional
"rare ... has zero cards → fails" is therefore false; only a tier actually
drawn from must be non-empty. -/
theorem C5_counterexample :
    Store.read storeE 2 = ([] : List Nat) ∧
    dictFind dictE "rare" = some 2 ∧
    isError (get_cards dictE storeE rngE) = false ∧
    (get_cards dictE storeE rngE).map (fun x => x.1) =
      .ok [0, 1, 2, 3, 4, 5, 6, 7, 8, 9, 0, 0] := by decide

/-- Claim C5, amended: `get_cards` fails (with a `KeyError` or `IndexError`,
never a silently short pack) whenever any of the four tiers is absent from
the map, or the common or uncommon bucket is empty, or the rare-slot roll
selects a tier (rare, or mythic on a sub-13 roll) whose bucket is empty. -/
theorem C5_out_of_stock {α : Type} [DecidableEq α] (dict : List (String × Nat))
    (st : Store α) (rng : List Nat)
    (h : dictFind dict "common" = none ∨ dictFind dict "uncommon" = none ∨
         dictFind dict "mythic" = none ∨ dictFind dict "rare" = none ∨
         (∃ i, dictFind dict "common" = some i ∧ Store.read st i = []) ∨
         (∃ i, dictFind dict "uncommon" = some i ∧ i < Store.size st ∧
               Store.read st i = []) ∨
         (∃ i, dictFind dict "rare" = some i ∧ i < Store.size st ∧ Store.read st i = [] ∧
               ¬ (rng.drop 9).headD 0 % 101 < 13) ∨
         (∃ i, dictFind dict "mythic" = some i ∧ i < Store.size st ∧ Store.read st i = [] ∧
               (rng.drop 9).headD 0 % 101 < 13)) :
    isError (get_cards dict st rng) = true := by
  cases hres : get_cards dict st rng with
  | error e => rfl
  | ok res =>
    exfalso
    obtain ⟨pack, stf, rngf⟩ := res
    obtain ⟨ci, ui, mi, ri, ti, d1, d2, c10, w1, w2, st2, st4, rng5, rng6,
      hci, hd1, hui, hd2, hmi, hri, hstf, hti, hc10, hw1, hw2, hpack, hrngf⟩ :=
      get_cards_ok_inv dict st rng pack stf rngf hres
    rcases h with h | h | h | h | h | h | h | h
    · rw [h] at hci; cases hci
    · rw [h] at hui; cases hui
    · rw [h] at hmi; cases hmi
    · rw [h] at hri; cases hri
    · obtain ⟨i, hfd, hempty⟩ := h
      rw [hci] at hfd
      injection hfd with e
      subst e
      obtain ⟨hlen1, _, hperm1, _, _⟩ := drawLoopCell_spec 6 _ _ _ _ _ _ hd1
      rw [Store.read_push_self, hempty] at hperm1
      have := List.append_eq_nil.mp hperm1.eq_nil
      rw [this.1] at hlen1
      simp at hlen1
    · obtain ⟨i, hfd, hlt, hempty⟩ := h
      rw [hui] at hfd
      injection hfd with e
      subst e
      obtain ⟨_, _, _, hfr1, _⟩ := drawLoopCell_spec 6 _ _ _ _ _ _ hd1
      obtain ⟨hlen2, _, hperm2, _, _⟩ := drawLoopCell_spec 3 _ _ _ _ _ _ hd2
      rw [Store.read_push_self, hfr1 ui (Nat.ne_of_lt hlt),
        Store.read_push_ne _ _ ui (Nat.ne_of_lt hlt), hempty] at hperm2
      have := List.append_eq_nil.mp hperm2.eq_nil
      rw [this.1] at hlen2
      simp at hlen2
    · obtain ⟨i, hfd, hlt, hempty, hroll⟩ := h
      rw [show rareSlotTier ((rng.drop 9).headD 0 % 101) = "rare" from if_neg hroll] at hti
      rw [hfd] at hti
      injection hti with e
      subst e
      obtain ⟨hmem, _⟩ := pyChoice_ok_inv _ _ _ _ hc10
      rw [hstf, frame_chain st st2 st4 ci ui mi ri rng d1 d2 hd1 hd2 i hlt, hempty] at hmem
      cases hmem
    · obtain ⟨i, hfd, hlt, hempty, hroll⟩ := h
      rw [show rareSlotTier ((rng.drop 9).headD 0 % 101) = "mythic" from if_pos hroll] at hti
      rw [hfd] at hti
      injection hti with e
      subst e
      obtain ⟨hmem, _⟩ := pyChoice_ok_inv _ _ _ _ hc10
      rw [hstf, frame_chain st st2 st4 ci ui mi ri rng d1 d2 hd1 hd2 i hlt, hempty] at hmem
      cases hmem

/-- Claim C5 witness: with an empty common bucket the call raises. -/
theorem C5_out_of_stock_witness : isError (get_cards dictE storeW rngE) = true :=
  C5_out_of_stock dictE storeW rngE
    (Or.inr (Or.inr (Or.inr (Or.inr (Or.inl ⟨0, by rfl, by rfl⟩)))))

/-- Claim C7, counterexample: the wildcard roll `randint(0, 10)` can yield
10, and a roll of 10 selects the uncommon tier, although 10 is outside the
claim's enumerated ranges (9 → rare, 6–8 → uncommon, 0–5 → common). -/
theorem C7_counterexample :
    (randint 0 10 [10]).1 = 10 ∧ wildcardSelect 10 0 = "uncommon" ∧
    wildcardSelect 10 0 ≠ "common" ∧ ¬ ((6 : Nat) ≤ 10 ∧ (10 : Nat) ≤ 8) := by decide

/-- Claim C7, amended: the wildcard roll is uniform over 0–10; a roll of 9
selects the rare slot with the same 13%-mythic override, rolls 6–8 *and 10*
select uncommon, and rolls 0–5 select common.  The draw then samples the
selected tier's original bucket with replacement: on the 20/10/5/2 example
both wildcard slots re-draw card 0, which the first common slot already
took. -/
theorem C7_wildcard_tiers :
    (∀ rng, (randint 0 10 rng).1 ≤ 10) ∧
    (∀ rt r2 : Nat, rt ≤ 10 →
       ((wildcardSelect rt r2 = "common") ↔ rt ≤ 5) ∧
       ((wildcardSelect rt r2 = "uncommon") ↔ ((6 ≤ rt ∧ rt ≤ 8) ∨ rt = 10)) ∧
       (rt = 9 → wildcardSelect rt r2 = rareSlotTier r2)) ∧
    (get_cards dict20 store20 rng0).map (fun x => x.1) =
      .ok [0, 1, 2, 3, 4, 5, 20, 21, 22, 35, 0, 0] := by
  refine ⟨?_, ?_, by decide⟩
  · intro rng
    have : rng.headD 0 % 11 < 11 := Nat.mod_lt _ (by omega)
    simp only [randint, Nat.zero_add]
    omega
  · intro rt r2 hrt
    interval_cases rt <;>
      refine ⟨?_, ?_, ?_⟩ <;>
      simp [wildcardSelect, rareSlotTier] <;>
      split <;> simp

/-- Claim C7 witness: the amended tier rule at the roll value 10. -/
theorem C7_wildcard_tiers_witness :
    ((wildcardSelect 10 0 = "common") ↔ (10 : Nat) ≤ 5) ∧
    ((wildcardSelect 10 0 = "uncommon") ↔ (((6 : Nat) ≤ 10 ∧ (10 : Nat) ≤ 8) ∨ (10 : Nat) = 10)) ∧
    ((10 : Nat) = 9 → wildcardSelect 10 0 = rareSlotTier 0) :=
  C7_wildcard_tiers.2.1 10 0 (by decide)

set_option maxRecDepth 4000 in
/-- Claim C8, counterexample: the rare-slot roll `random.randint(0, 100)` has
101 equally likely outcomes, of which 13 (not 13 of 100) select the mythic
pool — the mythic fraction is 13/101, not 13/100. -/
theorem C8_counterexample :
    ¬ ((rollOutcomes.filter (fun r => rareSlotTier r = "mythic")).card * 100 =
       13 * rollOutcomes.card) := by decide

set_option maxRecDepth 4000 in
/-- Claim C8, amended: exactly 13 of the 101 equally likely outcomes of the
rare-slot roll select the mythic pool (those below 13), and the rare pool is
selected otherwise. -/
theorem C8_mythic_rate :
    (rollOutcomes.filter (fun r => rareSlotTier r = "mythic")).card = 13 ∧
    rollOutcomes.card = 101 ∧
    (∀ rng, (randint 0 100 rng).1 ∈ rollOutcomes) ∧
    (∀ r, rareSlotTier r = "mythic" ↔ r < 13) ∧
    (∀ r, rareSlotTier r = "rare" ↔ ¬ r < 13) := by
  refine ⟨by decide, by decide, ?_, ?_, ?_⟩
  · intro rng
    have hlt : rng.headD 0 % 101 < 101 := Nat.mod_lt _ (by omega)
    simp only [randint, Nat.zero_add, rollOutcomes, Finset.mem_image]
    refine ⟨rng.headD 0 % 101, Finset.mem_range.mpr hlt, ?_⟩
    simp only [randint, List.headD, Nat.zero_add]
    exact Nat.mod_mod_of_dvd _ dvd_rfl
  · intro r
    unfold rareSlotTier
    split <;> simp_all
  · intro r
    unfold rareSlotTier
    split <;> simp_all

/-- Claim C9: a successful `get_cards` call leaves every pre-existing store
cell — in particular every tier's bucket — unchanged: the sampler copies the
buckets (`list(...)`) and removes cards only from the copies, so repeated
calls draw from identical pools. -/
theorem C9_no_mutation {α : Type} [DecidableEq α] (dict : List (String × Nat))
    (st : Store α) (rng : List Nat) (pack : List α) (stf : Store α) (rngf : List Nat)
    (h : get_cards dict st rng = .ok (pack, stf, rngf))
    (t : String) (i : Nat) (ht : dictFind dict t = some i) (hi : i < Store.size st) :
    Store.read stf i = Store.read st i := by
  obtain ⟨ci, ui, mi, ri, ti, d1, d2, c10, w1, w2, st2, st4, rng5, rng6,
    hci, hd1, hui, hd2, hmi, hri, hstf, hti, hc10, hw1, hw2, hpack, hrngf⟩ :=
    get_cards_ok_inv dict st rng pack stf rngf h
  rw [hstf]
  exact frame_chain st st2 st4 ci ui mi ri rng d1 d2 hd1 hd2 i hi

/-- Claim C9 witness: on the 20/10/5/2 example, the common bucket (cell 0)
reads the same after the call. -/
theorem C9_no_mutation_witness : Store.read stf20 0 = Store.read store20 0 :=
  C9_no_mutation dict20 store20 rng0 pack20 stf20 [] (by rfl) "common" 0 (by rfl) (by decide)

/-! ## Grouping lemmas (`group_sheet`) -/

theorem scanColors_eq (mana : String) :
    scanColors mana =
      match colorTokens.filter (fun c => pyContainsChar mana c) with
      | [] => (none, false)
      | [c] => (some c, false)
      | c :: _ :: _ => (some c, true) := by
  cases hB : pyContainsChar mana 'B' <;> cases hG : pyContainsChar mana 'G' <;>
    cases hW : pyContainsChar mana 'W' <;> cases hU : pyContainsChar mana 'U' <;>
    cases hR : pyContainsChar mana 'R' <;>
    simp [scanColors, colorTokens, List.filter, hB, hG, hW, hU, hR]

theorem group_step_eq (g : List (String × List Card)) (c : Card) :
    group_step g c =
      match specDisplayGroup c with
      | some k => dictAppend g k c
      | none => g := by
  unfold group_step specDisplayGroup
  by_cases h0 : c.mana_cost = ""
  · simp [h0]
  · rw [if_neg h0, if_neg h0, scanColors_eq]
    rcases hf : colorTokens.filter (fun t => pyContainsChar c.mana_cost t) with _ | ⟨a, _ | ⟨b, l⟩⟩ <;>
      simp

theorem dictAppend_cons_pos {β : Type} (k0 : String) (vs0 : List β)
    (rest : List (String × List β)) (v : β) :
    dictAppend ((k0, vs0) :: rest) k0 v = (k0, vs0 ++ [v]) :: rest := by
  simp [dictAppend]

theorem dictAppend_cons_neg {β : Type} (k0 k : String) (vs0 : List β)
    (rest : List (String × List β)) (v : β) (h : k0 ≠ k) :
    dictAppend ((k0, vs0) :: rest) k v = (k0, vs0) :: dictAppend rest k v := by
  simp [dictAppend, h]

theorem dictAppend_mem {β : Type} :
    ∀ (m : List (String × List β)) (k : String) (v : β) (p : String × List β),
      p ∈ dictAppend m k v → ∀ x ∈ p.2,
      (p.1 = k ∧ x = v) ∨ ∃ q ∈ m, q.1 = p.1 ∧ x ∈ q.2 := by
  intro m
  induction m with
  | nil =>
    intro k v p hp x hx
    simp only [dictAppend, List.mem_singleton] at hp
    subst hp
    simp only [List.mem_singleton] at hx
    exact Or.inl ⟨rfl, hx⟩
  | cons hd rest ih =>
    obtain ⟨k0, vs0⟩ := hd
    intro k v p hp x hx
    by_cases hk : k0 = k
    · subst hk
      rw [dictAppend_cons_pos, List.mem_cons] at hp
      rcases hp with hp | hp
      · subst hp
        simp only [List.mem_append, List.mem_singleton] at hx
        rcases hx with hx | hx
        · exact Or.inr ⟨(k0, vs0), List.mem_cons_self _ _, rfl, hx⟩
        · exact Or.inl ⟨rfl, hx⟩
      · exact Or.inr ⟨p, List.mem_cons_of_mem _ hp, rfl, hx⟩
    · rw [dictAppend_cons_neg _ _ _ _ _ hk, List.mem_cons] at hp
      rcases hp with hp | hp
      · subst hp
        exact Or.inr ⟨(k0, vs0), List.mem_cons_self _ _, rfl, hx⟩
      · rcases ih k v p hp x hx with h | ⟨q, hq, hq1, hq2⟩
        · exact Or.inl h
        · exact Or.inr ⟨q, List.mem_cons_of_mem _ hq, hq1, hq2⟩

theorem dictAppend_keys {β : Type} :
    ∀ (m : List (String × List β)) (k : String) (v : β),
      (dictAppend m k v).map Prod.fst =
        if k ∈ m.map Prod.fst then m.map Prod.fst else m.map Prod.fst ++ [k] := by
  intro m
  induction m with
  | nil => intro k v; simp [dictAppend]
  | cons hd rest ih =>
    obtain ⟨k0, vs0⟩ := hd
    intro k v
    by_cases hk : k0 = k
    · subst hk
      simp [dictAppend]
    · simp only [dictAppend, if_neg hk, List.map_cons, ih k v]
      by_cases hmem : k ∈ rest.map Prod.fst
      · simp [hmem, Ne.symm hk]
      · simp [hmem, Ne.symm hk]

theorem dictAppend_nodup_keys {β : Type} (m : List (String × List β)) (k : String) (v : β)
    (h : (m.map Prod.fst).Nodup) : ((dictAppend m k v).map Prod.fst).Nodup := by
  rw [dictAppend_keys]
  split
  · exact h
  · rename_i hk
    simp [List.nodup_append, h, hk]

theorem dictAppend_flat {β : Type} :
    ∀ (m : List (String × List β)) (k : String) (v : β),
      List.Perm ((dictAppend m k v).flatMap Prod.snd) (v :: m.flatMap Prod.snd) := by
  intro m
  induction m with
  | nil => intro k v; simp [dictAppend]
  | cons hd rest ih =>
    obtain ⟨k0, vs0⟩ := hd
    intro k v
    by_cases hk : k0 = k
    · subst hk
      rw [dictAppend_cons_pos]
      simp only [List.flatMap_cons, List.append_assoc]
      exact List.perm_middle
    · rw [dictAppend_cons_neg _ _ _ _ _ hk]
      simp only [List.flatMap_cons]
      exact (List.Perm.append_left vs0 (ih k v)).trans List.perm_middle

theorem dictAppend_ne_nil {β : Type} :
    ∀ (m : List (String × List β)) (k : String) (v : β),
      (∀ p ∈ m, p.2 ≠ []) → ∀ p ∈ dictAppend m k v, p.2 ≠ [] := by
  intro m
  induction m with
  | nil =>
    intro k v _ p hp
    simp only [dictAppend, List.mem_singleton] at hp
    subst hp
    simp
  | cons hd rest ih =>
    obtain ⟨k0, vs0⟩ := hd
    intro k v h p hp
    by_cases hk : k0 = k
    · subst hk
      rw [dictAppend_cons_pos, List.mem_cons] at hp
      rcases hp with hp | hp
      · subst hp; simp
      · exact h p (List.mem_cons_of_mem _ hp)
    · rw [dictAppend_cons_neg _ _ _ _ _ hk, List.mem_cons] at hp
      rcases hp with hp | hp
      · subst hp; exact h (k0, vs0) (List.mem_cons_self _ _)
      · exact ih k v (fun q hq => h q (List.mem_cons_of_mem _ hq)) p hp

theorem group_step_inv (g : List (String × List Card)) (c : Card) (processed : List Card)
    (h1 : ∀ p ∈ g, ∀ x ∈ p.2, specDisplayGroup x = some p.1)
    (h2 : (g.map Prod.fst).Nodup)
    (h3 : List.Perm (g.flatMap Prod.snd)
      (processed.filter (fun x => (specDisplayGroup x).isSome)))
    (h4 : ∀ p ∈ g, p.2 ≠ []) :
    (∀ p ∈ group_step g c, ∀ x ∈ p.2, specDisplayGroup x = some p.1) ∧
    ((group_step g c).map Prod.fst).Nodup ∧
    List.Perm ((group_step g c).flatMap Prod.snd)
      ((processed ++ [c]).filter (fun x => (specDisplayGroup x).isSome)) ∧
    (∀ p ∈ group_step g c, p.2 ≠ []) := by
  rw [group_step_eq]
  cases hd : specDisplayGroup c with
  | none =>
    refine ⟨h1, h2, ?_, h4⟩
    rw [List.filter_append]
    simpa [List.filter, hd] using h3
  | some k =>
    refine ⟨?_, dictAppend_nodup_keys g k c h2, ?_, dictAppend_ne_nil g k c h4⟩
    · intro p hp x hx
      rcases dictAppend_mem g k c p hp x hx with ⟨hpk, hxc⟩ | ⟨q, hq, hq1, hq2⟩
      · rw [hxc, hpk]; exact hd
      · rw [← hq1]; exact h1 q hq x hq2
    · rw [List.filter_append]
      have hone : List.filter (fun x => (specDisplayGroup x).isSome) [c] = [c] := by
        simp [List.filter, hd]
      rw [hone]
      refine (dictAppend_flat g k c).trans ?_
      exact (h3.cons c).trans (List.perm_append_singleton _ _).symm

theorem group_sheet_inv (cards : List (String × Card)) :
    ∀ (g : List (String × List Card)) (processed : List Card),
    (∀ p ∈ g, ∀ x ∈ p.2, specDisplayGroup x = some p.1) →
    (g.map Prod.fst).Nodup →
    List.Perm (g.flatMap Prod.snd)
      (processed.filter (fun x => (specDisplayGroup x).isSome)) →
    (∀ p ∈ g, p.2 ≠ []) →
    (∀ p ∈ cards.foldl (fun acc q => group_step acc q.2) g, ∀ x ∈ p.2,
        specDisplayGroup x = some p.1) ∧
    ((cards.foldl (fun acc q => group_step acc q.2) g).map Prod.fst).Nodup ∧
    List.Perm ((cards.foldl (fun acc q => group_step acc q.2) g).flatMap Prod.snd)
      ((processed ++ cards.map Prod.snd).filter (fun x => (specDisplayGroup x).isSome)) ∧
    (∀ p ∈ cards.foldl (fun acc q => group_step acc q.2) g, p.2 ≠ []) := by
  induction cards with
  | nil =>
    intro g processed h1 h2 h3 h4
    exact ⟨h1, h2, by simpa using h3, h4⟩
  | cons q rest ih =>
    intro g processed h1 h2 h3 h4
    obtain ⟨s1, s2, s3, s4⟩ := group_step_inv g q.2 processed h1 h2 h3 h4
    have hrec := ih (group_step g q.2) (processed ++ [q.2]) s1 s2 s3 s4
    rw [show processed ++ (q :: rest).map Prod.snd
        = (processed ++ [q.2]) ++ rest.map Prod.snd from by simp]
    exact hrec

/-- Claim C6: `group_sheet` places each card in exactly one display bucket —
the bucket given by the spec's rule (`specDisplayGroup`): "Lands" on an
empty mana cost, the single colour's bucket when exactly one recognized
colour token appears, "Multi" when several do — the bucket keys are
distinct, and flattening the buckets is a permutation of exactly the input
cards that fall in some bucket (cards with a non-empty mana cost and no
recognized colour token appear in none). -/
theorem C6_grouping_roundtrip (cards : List (String × Card)) :
    (∀ p ∈ group_sheet cards, ∀ x ∈ p.2, specDisplayGroup x = some p.1) ∧
    ((group_sheet cards).map Prod.fst).Nodup ∧
    List.Perm ((group_sheet cards).flatMap Prod.snd)
      ((cards.map Prod.snd).filter (fun x => (specDisplayGroup x).isSome)) := by
  have h := group_sheet_inv cards [] [] (by simp) (by simp) (by simp) (by simp)
  exact ⟨h.1, h.2.1, by simpa using h.2.2.1⟩

/-- Claim C6 witness: a single mono-red card lands in the "Red" bucket. -/
theorem C6_grouping_roundtrip_witness : specDisplayGroup cardRed = some "Red" :=
  (C6_grouping_roundtrip [("bolt", cardRed)]).1 ("Red", [cardRed]) (by decide) cardRed
    (by decide)

/-- Claim C10: `group_sheet`'s result holds only buckets that received a
card, so when no input card is classified into a display group, looking that
group up — as the cheatsheet CSV writer does unconditionally for all seven
groups — raises a `KeyError` instead of yielding an empty list. -/
theorem C10_missing_group (cards : List (String × Card)) (gname : String)
    (h : ∀ c ∈ cards.map Prod.snd, specDisplayGroup c ≠ some gname) :
    dictGetE (group_sheet cards) gname = .error (.keyError gname) := by
  apply dictGetE_none
  cases hf : dictFind (group_sheet cards) gname with
  | none => rfl
  | some vs =>
    exfalso
    have hmem : (gname, vs) ∈ group_sheet cards := dictFind_mem _ _ _ hf
    have inv := group_sheet_inv cards [] [] (by simp) (by simp) (by simp) (by simp)
    have hne : vs ≠ [] := inv.2.2.2 _ hmem
    obtain ⟨c, hc⟩ := List.exists_mem_of_ne_nil vs hne
    have hclass : specDisplayGroup c = some gname := inv.1 _ hmem c hc
    have hflat : c ∈ (group_sheet cards).flatMap Prod.snd :=
      List.mem_flatMap.mpr ⟨(gname, vs), hmem, hc⟩
    have hfil := (inv.2.2.1.mem_iff).mp hflat
    rw [List.nil_append] at hfil
    exact h c (List.mem_of_mem_filter hfil) hclass

/-- Claim C10 witness: with only a red card in the input, looking up "Blue"
raises. -/
theorem C10_missing_group_witness :
    dictGetE (group_sheet [("bolt", cardRed)]) "Blue" = .error (.keyError "Blue") :=
  C10_missing_group [("bolt", cardRed)] "Blue" (by decide)

/-! ## Reconciliation lemmas (`cheatsheet`) -/

theorem fuzzy_fold_frame {κ γ : Type} (cn : String) (e : γ) :
    ∀ (named : List (String × κ)) (rv : List (String × γ)) (n : String),
    n ∉ named.map Prod.fst →
    dictFind (named.foldl
      (fun acc p => if distance cn p.1 ≤ 4 then dictSet acc p.1 e else acc) rv) n
      = dictFind rv n := by
  intro named
  induction named with
  | nil => intro rv n _; rfl
  | cons p rest ih =>
    intro rv n hn
    simp only [List.map_cons, List.mem_cons] at hn
    push_neg at hn
    rw [List.foldl_cons]
    by_cases hd : distance cn p.1 ≤ 4
    · rw [if_pos hd, ih _ n hn.2, dictFind_dictSet_ne rv p.1 n e hn.1]
    · rw [if_neg hd, ih _ n hn.2]

theorem fuzzy_fold_lookup {κ γ : Type} (cn : String) (e : γ) :
    ∀ (named : List (String × κ)) (rv : List (String × γ)) (n : String),
    (named.map Prod.fst).Nodup → n ∈ named.map Prod.fst → distance cn n ≤ 4 →
    dictFind (named.foldl
      (fun acc p => if distance cn p.1 ≤ 4 then dictSet acc p.1 e else acc) rv) n
      = some e := by
  intro named
  induction named with
  | nil => intro rv n _ hn _; simp at hn
  | cons p rest ih =>
    intro rv n hnd hn hdist
    rw [List.foldl_cons]
    simp only [List.map_cons, List.mem_cons] at hn
    simp only [List.map_cons, List.nodup_cons] at hnd
    rcases hn with hn | hn
    · subst hn
      rw [if_pos hdist, fuzzy_fold_frame cn e rest _ p.1 hnd.1, dictFind_dictSet_self]
    · by_cases hd : distance cn p.1 ≤ 4
      · rw [if_pos hd]; exact ih _ n hnd.2 hn hdist
      · rw [if_neg hd]; exact ih _ n hnd.2 hn hdist

theorem fuzzy_fold_id {κ γ : Type} (cn : String) (e : γ) :
    ∀ (named : List (String × κ)) (rv : List (String × γ)),
    (∀ n ∈ named.map Prod.fst, ¬ distance cn n ≤ 4) →
    named.foldl (fun acc p => if distance cn p.1 ≤ 4 then dictSet acc p.1 e else acc) rv
      = rv := by
  intro named
  induction named with
  | nil => intro rv _; rfl
  | cons p rest ih =>
    intro rv h
    rw [List.foldl_cons, if_neg (h p.1 (by simp)),
      ih _ (fun n hn => h n (by simp [hn]))]

/-- Claim C2: for a review entry (under snapshot key `cn`, with value `e`)
that fails the exact case-insensitive lookup: if some known card name is
within Levenshtein distance 4 of `cn`, the loop body leaves `found` and
`not_found` unchanged and re-keys the entry in `reviewed` under every such
canonical name; if every known name is at distance 5 or more, the entry is
appended to `not_found` and `reviewed` is unchanged. -/
theorem C2_fuzzy_reconciliation {κ γ : Type} (named : List (String × κ)) (st : RecState γ)
    (cn : String) (e : γ)
    (hnd : (named.map Prod.fst).Nodup)
    (hc : dictFind st.reviewed cn = some e)
    (hmiss : dictFind named (pyLower cn) = none) :
    ((∃ n ∈ named.map Prod.fst, distance cn n ≤ 4) →
       (reconcileStep named st cn).notFound = st.notFound ∧
       (reconcileStep named st cn).found = st.found ∧
       (∀ n ∈ named.map Prod.fst, distance cn n ≤ 4 →
         dictFind (reconcileStep named st cn).reviewed n = some e)) ∧
    ((∀ n ∈ named.map Prod.fst, 5 ≤ distance cn n) →
       (reconcileStep named st cn).notFound = st.notFound ++ [e] ∧
       (reconcileStep named st cn).found = st.found ∧
       (reconcileStep named st cn).reviewed = st.reviewed) := by
  have hstep : reconcileStep named st cn =
      (if named.any (fun p => distance cn p.1 ≤ 4) then
        ⟨st.found, st.notFound,
          named.foldl
            (fun acc p => if distance cn p.1 ≤ 4 then dictSet acc p.1 e else acc)
            st.reviewed⟩
      else
        ⟨st.found, st.notFound ++ [e],
          named.foldl
            (fun acc p => if distance cn p.1 ≤ 4 then dictSet acc p.1 e else acc)
            st.reviewed⟩ : RecState γ) := by
    unfold reconcileStep
    rw [hc, hmiss]
  constructor
  · rintro ⟨n0, hn0, hd0⟩
    have hany : named.any (fun p => distance cn p.1 ≤ 4) = true := by
      simp only [List.any_eq_true, decide_eq_true_eq]
      obtain ⟨p0, hp0, hp0e⟩ := List.mem_map.mp hn0
      exact ⟨p0, hp0, by rw [hp0e]; exact hd0⟩
    rw [hstep, if_pos hany]
    exact ⟨rfl, rfl, fun n hn hd => fuzzy_fold_lookup cn e named st.reviewed n hnd hn hd⟩
  · intro hfar
    have hnot : ∀ n ∈ named.map Prod.fst, ¬ distance cn n ≤ 4 := by
      intro n hn
      have := hfar n hn
      omega
    have hany : ¬ (named.any (fun p => distance cn p.1 ≤ 4) = true) := by
      simp only [List.any_eq_true, decide_eq_true_eq]
      rintro ⟨p0, hp0, hd0⟩
      exact hnot p0.1 (List.mem_map.mpr ⟨p0, hp0, rfl⟩) hd0
    rw [hstep, if_neg hany]
    exact ⟨rfl, rfl, fuzzy_fold_id cn e named st.reviewed hnot⟩

/-- Claim C2 witness: the misspelled "Bol" is within distance 2 of the known
name "bolt"; the step re-keys its entry under "bolt" and leaves `found` and
`not_found` empty. -/
theorem C2_fuzzy_reconciliation_witness :
    dictFind (reconcileStep named1 rsSt "Bol").reviewed "bolt" = some 7 ∧
    (reconcileStep named1 rsSt "Bol").notFound = [] ∧
    (reconcileStep named1 rsSt "Bol").found = [] := by
  have h := (C2_fuzzy_reconciliation named1 rsSt "Bol" 7 (by decide) (by decide)
    (by decide)).1 ⟨"bolt", by decide, by decide⟩
  exact ⟨h.2.2 "bolt" (by decide) (by decide), h.1, h.2.1⟩

/-- Claim C3 (code bug): the numbered line "3 - Lightning Bolt - 4.5" does
parse to number "3", name "Lightning Bolt", rating "4.5", and following
non-numbered lines do attach to it as notes — but the *last* open card block
is never appended (`SetReview.parse` returns `cards` without closing the
open block at end of document), so a document consisting only of that line
parses to *no* entries, and in a longer document the final card is lost. -/
theorem C3_last_block_dropped :
    parse ["3 - Lightning Bolt - 4.5"] = [] ∧
    parse ["3 - Lightning Bolt - 4.5", "  solid removal", "9 - Other Card - 1.0"] =
      [⟨"3", "Lightning Bolt", "4.5", none, ["  solid removal"]⟩] := by decide

end Mtgcalc
